import Mathlib

/-!
Shallow embedding of the Verba server's upload pipeline:
`goldenverba/server/helpers.py` (`BatchManager`, `LoggerManager`) and
`goldenverba/server/api.py` (`check_document_in_weaviate_with_retry`,
`resilient_import_document`).

Python dicts are modelled as insertion-ordered association lists, matching
CPython semantics: assignment to an existing key updates its value in place
(keeping its position), assignment to a fresh key appends, and iteration
follows insertion order.  External effects (the WebSocket send, the Weaviate
queries, the importer) are modelled by explicit per-call outcome values
supplied as arguments.
-/

namespace Verba

/-- Python dict membership test (`key in d`). -/
def dictContains {κ ν : Type} [DecidableEq κ] (m : List (κ × ν)) (k : κ) : Bool :=
  m.any (fun q => decide (q.1 = k))

/-- Python dict read (`d[key]`), `none` when the key is absent. -/
def dictLookup {κ ν : Type} [DecidableEq κ] : List (κ × ν) → κ → Option ν
  | [], _ => none
  | q :: rest, k => if q.1 = k then some q.2 else dictLookup rest k

/-- Python dict assignment `d[key] = v`: overwrite in place when the key is
present, otherwise append at the end. -/
def dictInsert {κ ν : Type} [DecidableEq κ] (m : List (κ × ν)) (k : κ) (v : ν) :
    List (κ × ν) :=
  if dictContains m k then m.map (fun q => if q.1 = k then (k, v) else q)
  else m ++ [(k, v)]

/-- Python `del d[key]`: drop the entry carrying the key. -/
def dictDelete {κ ν : Type} [DecidableEq κ] : List (κ × ν) → κ → List (κ × ν)
  | [], _ => []
  | q :: rest, k => if q.1 = k then dictDelete rest k else q :: dictDelete rest k

/-- One in-progress upload session of `BatchManager` (`self.batches[fileID]`,
helpers.py lines 148-153): the declared total recorded from the first
fragment, and the chunk dict mapping fragment index to chunk text. -/
structure Session where
  total : Nat
  chunks : List (Nat × String)
deriving DecidableEq

/-- Modelled from the spec: the inbound fragment message `DataBatchPayload`
(from `goldenverba.server.types`, not under src), with exactly the fields
`add_batch` reads; spec section 6 gives the same shape. -/
structure DataBatchPayload where
  fileID : String
  total : Nat
  order : Nat
  chunk : String
  isLastChunk : Bool
deriving DecidableEq

/-- The `BatchManager.batches` table: Python dict keyed by file id. -/
abbrev BatchState := List (String × Session)

/-- helpers.py line 172: `"".join([chunks[chunk] for chunk in chunks])` —
the chunk dict's values joined in dict-iteration order, which is insertion
order, not ascending index order. -/
def assembleData (chunks : List (Nat × String)) : String :=
  String.join (chunks.map Prod.snd)

/-- The read `self.batches[fileID]`; the default is unreachable at every call
site because `check_batch` is only invoked right after the session is
written. -/
def sessionOf (batches : BatchState) (fileID : String) : Session :=
  (dictLookup batches fileID).getD ⟨0, []⟩

/-- `BatchManager.check_batch` (helpers.py lines 168-175): when the number of
recorded distinct indices equals the declared total, join the chunk values in
dict order and parse them (`FileConfig.model_validate_json`, modelled by the
`parse` argument); a parse failure raises, modelled as `Except.error`.  When
the count differs from the total, return `none`. -/
def check_batch {α : Type} (parse : String → Option α) (batches : BatchState)
    (fileID : String) : Except Unit (Option α) :=
  let s := sessionOf batches fileID
  if s.chunks.length = s.total then
    match parse (assembleData s.chunks) with
    | some fc => Except.ok (some fc)
    | none => Except.error ()
  else Except.ok none

/-- helpers.py lines 148-155: create the session on first sight of the id
(the declared total is taken from that first fragment) and record the chunk
at its index in the session's chunk dict. -/
def record_chunk (batches : BatchState) (p : DataBatchPayload) : BatchState :=
  let batches1 := if dictContains batches p.fileID then batches
    else dictInsert batches p.fileID ⟨p.total, []⟩
  let s := (dictLookup batches1 p.fileID).getD ⟨p.total, []⟩
  dictInsert batches1 p.fileID ⟨s.total, dictInsert s.chunks p.order p.chunk⟩

/-- `BatchManager.add_batch` (helpers.py lines 144-166).  The surrounding
`try/except` catches the parse error raised inside `check_batch`, logs it and
falls off the end of the function (an implicit `None` return), which skips
the `del`; on a normal return the session is deleted exactly when a config
was produced or `isLastChunk` is set. -/
def add_batch {α : Type} (parse : String → Option α) (batches : BatchState)
    (p : DataBatchPayload) : BatchState × Option α :=
  let batches2 := record_chunk batches p
  match check_batch parse batches2 p.fileID with
  | Except.error _ => (batches2, none)
  | Except.ok fc =>
    if fc.isSome || p.isLastChunk then (dictDelete batches2 p.fileID, fc)
    else (batches2, fc)

/-- Feed a list of fragment payloads to `add_batch` in arrival order,
returning the final table together with the value each call returned. -/
def addAll {α : Type} (parse : String → Option α) :
    BatchState → List DataBatchPayload → BatchState × List (Option α)
  | st, [] => (st, [])
  | st, p :: ps =>
    let r := add_batch parse st p
    let rest := addAll parse r.1 ps
    (rest.1, r.2 :: rest.2)

/-- Fragments carrying the chunks of a list at consecutive indices starting
at `start`, all for session `f` with declared total `n`, `isFinal` unset. -/
def ascPayloads (f : String) (n : Nat) : Nat → List String → List DataBatchPayload
  | _, [] => []
  | start, c :: cs => ⟨f, n, start, c, false⟩ :: ascPayloads f n (start + 1) cs

/-- The chunk dict that results from recording a list of chunks at
consecutive indices starting at `start`, in that arrival order. -/
def ascChunks : Nat → List String → List (Nat × String)
  | _, [] => []
  | start, c :: cs => (start, c) :: ascChunks (start + 1) cs

/-- Modelled from the spec: the status phases of `FileStatus`
(`goldenverba.server.types`, not under src).  helpers.py and api.py use the
members DONE and ERROR, the heartbeat sends the literal "PROCESSING", and
spec section 3 gives the phase set as PROCESSING, DONE, ERROR. -/
inductive FileStatus where
  | PROCESSING
  | DONE
  | ERROR
deriving DecidableEq

/-- Outcome of one `socket.send_json` attempt as classified by the except
blocks of helpers.py lines 55-82: success; an exception whose text matches
one of the five known permanent WebSocket state-error phrases (lines 58-64);
or any other exception (transient, worth retrying). -/
inductive SendOutcome where
  | success
  | permanent
  | transient
deriving DecidableEq

/-- The mutable reporter health state set up in `LoggerManager.__init__`
(helpers.py lines 14-19): `websocket_failed` and `error_logged`.
(`retry_count` is initialized but never read; `max_retries` is the
constant 3.) -/
structure LoggerState where
  websocket_failed : Bool
  error_logged : Bool
deriving DecidableEq

/-- `self.max_retries = 3` (helpers.py line 18). -/
def max_retries : Nat := 3

/-- Result of one `_try_send_with_retry` cycle: whether a send succeeded,
whether the cycle set `websocket_failed`, how many send attempts it made,
and the total milliseconds spent in the fixed `asyncio.sleep(0.5)` pauses
between attempts. -/
structure SendResult where
  delivered : Bool
  setFailed : Bool
  attempts : Nat
  sleptMs : Nat
deriving DecidableEq

/-- `LoggerManager._try_send_with_retry` (helpers.py lines 38-82), driven by
the list of per-attempt send outcomes (one entry per loop iteration; the
faithful instantiation passes one outcome per `range(max_retries)` slot).
Success returns at once; a permanent-signature error sets the failed flag
and returns with no retry; any other error sleeps 0.5 s and retries, unless
this was the last attempt, in which case the failed flag is set. -/
def trySendList : List SendOutcome → SendResult
  | [] => ⟨false, false, 0, 0⟩
  | o :: rest =>
    match o with
    | .success => ⟨true, false, 1, 0⟩
    | .permanent => ⟨false, true, 1, 0⟩
    | .transient =>
      match rest with
      | [] => ⟨false, true, 1, 0⟩
      | r :: rs =>
        let r2 := trySendList (r :: rs)
        ⟨r2.delivered, r2.setFailed, r2.attempts + 1, r2.sleptMs + 500⟩

/-- `LoggerManager.send_report` (helpers.py lines 21-36): a DONE or ERROR
report on a failed reporter resets `websocket_failed` (and `error_logged`);
the WebSocket is then attempted only when a socket is present and the flag
is clear, running one `_try_send_with_retry` cycle over at most
`max_retries` attempts.  Returns the new state and the cycle's result
(`none` when no send was attempted). -/
def send_report (socketPresent : Bool) (outcomes : List SendOutcome)
    (st : LoggerState) (status : FileStatus) : LoggerState × Option SendResult :=
  let st1 := if (status = FileStatus.DONE ∨ status = FileStatus.ERROR)
      ∧ st.websocket_failed = true
    then ⟨false, false⟩ else st
  if socketPresent = true ∧ st1.websocket_failed = false then
    let r := trySendList (outcomes.take max_retries)
    (⟨r.setFailed, st1.error_logged || r.setFailed⟩, some r)
  else (st1, none)

/-- `LoggerManager.send_heartbeat` (helpers.py lines 106-119): one
un-retried send guarded by socket presence, the failed flag and the
duck-typed `_is_websocket_connected` check (the `connected` argument); any
exception just sets `websocket_failed` without logging. -/
def send_heartbeat (socketPresent connected : Bool) (outcome : SendOutcome)
    (st : LoggerState) : LoggerState :=
  if socketPresent = true ∧ st.websocket_failed = false ∧ connected = true then
    match outcome with
    | .success => st
    | _ => ⟨true, st.error_logged⟩
  else st

/-- A document candidate returned by a Weaviate query; `title` is
`doc.properties.get("title")` (absent property gives `none`). -/
structure Candidate where
  title : Option String
deriving DecidableEq

/-- Outcome of the BM25 ranked search of api.py lines 229-236: a result
list, a 30-second `asyncio.TimeoutError`, or any other exception. -/
inductive RankedOutcome where
  | ok (objs : List Candidate)
  | timeout
  | raised
deriving DecidableEq

deriving instance DecidableEq for Except

/-- The store's behavior during one verification attempt of
`check_document_in_weaviate_with_retry`: the `collections.exists` call
(which may itself raise), the ranked BM25 search, and the exact-equality
fallback `fetch_objects` query used when the ranked search times out. -/
structure AttemptEnv where
  collectionExists : Except Unit Bool
  ranked : RankedOutcome
  fallback : Except Unit (List Candidate)
deriving DecidableEq

/-- One loop iteration of `check_document_in_weaviate_with_retry` (api.py
lines 211-294): `true` means the iteration returns True; `false` means the
iteration falls through to the next attempt (or to False on the last).
A missing collection, a raised `collections.exists`, a raised ranked search,
an empty or non-matching ranked hit set, and every fallback failure are all
misses; a ranked candidate counts only on exact title equality, while the
timeout fallback trusts any non-empty result of its equality-filtered
query. -/
def attemptHit (filename : String) (env : AttemptEnv) : Bool :=
  match env.collectionExists with
  | .error _ => false
  | .ok false => false
  | .ok true =>
    match env.ranked with
    | .ok objs => objs.any (fun d => d.title == some filename)
    | .raised => false
    | .timeout =>
      match env.fallback with
      | .ok objs => decide (objs ≠ [])
      | .error _ => false

/-- `check_document_in_weaviate_with_retry` (api.py lines 206-296): the
retry loop over per-attempt store behaviors (one entry per `range`
iteration; the faithful instantiation passes `max_retries = 3` entries).
Returns True on the first hit, False when all attempts miss. -/
def check_document_in_weaviate_with_retry (filename : String) :
    List AttemptEnv → Bool
  | [] => false
  | env :: rest =>
    if attemptHit filename env then true
    else check_document_in_weaviate_with_retry filename rest

/-- The candidates the probe actually examined in an attempt: the ranked
hit set when the ranked search returned, the fallback result after a
timeout, nothing otherwise. -/
def returnedCandidates (env : AttemptEnv) : List Candidate :=
  match env.collectionExists with
  | .ok true =>
    match env.ranked with
    | .ok objs => objs
    | .timeout =>
      match env.fallback with
      | .ok objs => objs
      | .error _ => []
    | .raised => []
  | _ => []

/-- The interface contract of `Store.queryEqual` (spec section 6): the
fallback `fetch_objects` call filters by exact title equality, so every
candidate it returns carries exactly the probed title. -/
def fallbackContract (filename : String) (env : AttemptEnv) : Prop :=
  ∀ objs, env.fallback = Except.ok objs → ∀ cand ∈ objs, cand.title = some filename

/-- The final disposition computed by `resilient_import_document`:
the terminal report it sends, the logger state after that report, and the
error it raises to the caller (`none` on the DONE path). -/
structure ReconcileOutcome where
  reportStatus : FileStatus
  reportMessage : String
  loggerState : LoggerState
  raised : Option String
deriving DecidableEq

/-- The verification step of `resilient_import_document` (api.py lines
338-356): with credentials, connect a fresh client and probe with it; if
acquiring the fresh client raises, fall back to probing with the existing
client; without credentials, probe with the existing client.  (The probe
itself never raises, so the fallback is only reached on a connect
failure.) -/
def resolveDocumentExists (filename : String) (credentials : Option Unit)
    (connectResult : Except Unit (List AttemptEnv))
    (existingEnvs : List AttemptEnv) : Bool :=
  match credentials with
  | some _ =>
    match connectResult with
    | .ok freshEnvs => check_document_in_weaviate_with_retry filename freshEnvs
    | .error _ => check_document_in_weaviate_with_retry filename existingEnvs
  | none => check_document_in_weaviate_with_retry filename existingEnvs

/-- `resilient_import_document` (api.py lines 305-396) after the importer
call: `importError` is the captured importer failure text (if any); the
probe outcome decides everything.  Found: send a DONE report, raise
nothing.  Not found: send an ERROR report whose message carries the import
error when one occurred (else the synthesized verification-failed message),
then raise the import error, or a synthesized not-found error when the
importer had reported success.  The report is sent inside try/except, so a
reporter failure cannot alter the outcome. -/
def resilient_import_document (filename : String) (importError : Option String)
    (credentials : Option Unit) (connectResult : Except Unit (List AttemptEnv))
    (existingEnvs : List AttemptEnv) (socketPresent : Bool)
    (reportOutcomes : List SendOutcome) (st : LoggerState) : ReconcileOutcome :=
  let document_exists :=
    resolveDocumentExists filename credentials connectResult existingEnvs
  if document_exists then
    ⟨FileStatus.DONE, "Import for " ++ filename ++ " completed successfully",
     (send_report socketPresent reportOutcomes st FileStatus.DONE).1, none⟩
  else
    let error_message :=
      match importError with
      | some e => "Import failed: " ++ e
      | none => "Document not found in Weaviate after import (verification failed)"
    ⟨FileStatus.ERROR, error_message,
     (send_report socketPresent reportOutcomes st FileStatus.ERROR).1,
     some (importError.getD "Document not found in Weaviate after import")⟩

theorem dictContains_append_self {κ ν : Type} [DecidableEq κ]
    (m : List (κ × ν)) (k : κ) (v : ν) :
    dictContains (m ++ [(k, v)]) k = true := by
  simp [dictContains, List.any_append]

theorem dictContains_map_upd {κ ν : Type} [DecidableEq κ]
    (m : List (κ × ν)) (k : κ) (v : ν) :
    dictContains (m.map (fun q => if q.1 = k then (k, v) else q)) k = dictContains m k := by
  induction m with
  | nil => rfl
  | cons q m ih =>
    by_cases h : q.1 = k
    · simp [dictContains, h]
    · simp only [dictContains, List.map_cons, List.any_cons] at ih ⊢
      simp [h, ih]

theorem map_upd_of_not_contains {κ ν : Type} [DecidableEq κ]
    (m : List (κ × ν)) (k : κ) (v : ν) (h : dictContains m k = false) :
    m.map (fun q => if q.1 = k then (k, v) else q) = m := by
  induction m with
  | nil => rfl
  | cons q m ih =>
    simp only [dictContains, List.any_cons, Bool.or_eq_false_iff, decide_eq_false_iff_not] at h
    simp only [List.map_cons, if_neg h.1]
    rw [ih (by simpa [dictContains] using h.2)]

theorem dictContains_insert_self {κ ν : Type} [DecidableEq κ]
    (m : List (κ × ν)) (k : κ) (v : ν) :
    dictContains (dictInsert m k v) k = true := by
  unfold dictInsert
  by_cases h : dictContains m k
  · rw [if_pos h, dictContains_map_upd, h]
  · rw [if_neg h]
    exact dictContains_append_self m k v

theorem dictLookup_map_upd_self {κ ν : Type} [DecidableEq κ]
    (m : List (κ × ν)) (k : κ) (v : ν) (h : dictContains m k = true) :
    dictLookup (m.map (fun q => if q.1 = k then (k, v) else q)) k = some v := by
  induction m with
  | nil => simp [dictContains] at h
  | cons q m ih =>
    by_cases hq : q.1 = k
    · simp [dictLookup, hq]
    · simp only [dictContains, List.any_cons, Bool.or_eq_true, decide_eq_true_eq] at h
      have h' : dictContains m k = true := by
        rcases h with h | h
        · exact absurd h hq
        · simpa [dictContains] using h
      simpa [dictLookup, hq] using ih h'

theorem dictLookup_append_self {κ ν : Type} [DecidableEq κ]
    (m : List (κ × ν)) (k : κ) (v : ν) (h : dictContains m k = false) :
    dictLookup (m ++ [(k, v)]) k = some v := by
  induction m with
  | nil => simp [dictLookup]
  | cons q m ih =>
    simp only [dictContains, List.any_cons, Bool.or_eq_false_iff,
      decide_eq_false_iff_not] at h
    simpa [dictLookup, h.1] using ih (by simpa [dictContains] using h.2)

theorem dictLookup_insert_self {κ ν : Type} [DecidableEq κ]
    (m : List (κ × ν)) (k : κ) (v : ν) :
    dictLookup (dictInsert m k v) k = some v := by
  unfold dictInsert
  by_cases h : dictContains m k
  · rw [if_pos h]
    exact dictLookup_map_upd_self m k v h
  · rw [if_neg h]
    exact dictLookup_append_self m k v (by simpa using h)

theorem dictLookup_insert_other {κ ν : Type} [DecidableEq κ]
    (m : List (κ × ν)) (k g : κ) (v : ν) (hg : g ≠ k) :
    dictLookup (dictInsert m k v) g = dictLookup m g := by
  unfold dictInsert
  by_cases h : dictContains m k
  · rw [if_pos h]
    clear h
    induction m with
    | nil => rfl
    | cons q m ih =>
      simp only [List.map_cons]
      by_cases hq : q.1 = k
      · have hne : ¬ ((k, v).1 = g) := fun hkg => hg hkg.symm
        have hqng : ¬ q.1 = g := by rw [hq]; exact fun hkg => hg hkg.symm
        rw [if_pos hq]
        simp only [dictLookup]
        rw [if_neg hne, if_neg hqng]
        exact ih
      · rw [if_neg hq]
        simp only [dictLookup]
        by_cases hqg : q.1 = g
        · rw [if_pos hqg, if_pos hqg]
        · rw [if_neg hqg, if_neg hqg]
          exact ih
  · rw [if_neg h]
    clear h
    induction m with
    | nil =>
      simp only [List.nil_append, dictLookup]
      rw [if_neg (show ¬ ((k, v).1 = g) from fun hkg => hg hkg.symm)]
    | cons q m ih =>
      simp only [List.cons_append, dictLookup]
      by_cases hqg : q.1 = g
      · rw [if_pos hqg, if_pos hqg]
      · rw [if_neg hqg, if_neg hqg]
        exact ih

theorem dictLookup_delete_self {κ ν : Type} [DecidableEq κ]
    (m : List (κ × ν)) (k : κ) :
    dictLookup (dictDelete m k) k = none := by
  induction m with
  | nil => rfl
  | cons q m ih =>
    by_cases hq : q.1 = k
    · simpa [dictDelete, hq] using ih
    · simpa [dictDelete, dictLookup, hq] using ih

theorem dictLookup_delete_other {κ ν : Type} [DecidableEq κ]
    (m : List (κ × ν)) (k g : κ) (hg : g ≠ k) :
    dictLookup (dictDelete m k) g = dictLookup m g := by
  induction m with
  | nil => rfl
  | cons q m ih =>
    simp only [dictDelete]
    by_cases hq : q.1 = k
    · have hqng : ¬ q.1 = g := by rw [hq]; exact fun hkg => hg hkg.symm
      rw [if_pos hq]
      simp only [dictLookup]
      rw [if_neg hqng]
      exact ih
    · rw [if_neg hq]
      simp only [dictLookup]
      by_cases hqg : q.1 = g
      · rw [if_pos hqg, if_pos hqg]
      · rw [if_neg hqg, if_neg hqg]
        exact ih

theorem dictLookup_isSome_of_contains {κ ν : Type} [DecidableEq κ]
    (m : List (κ × ν)) (k : κ) (h : dictContains m k = true) :
    ∃ v, dictLookup m k = some v := by
  induction m with
  | nil => simp [dictContains] at h
  | cons q m ih =>
    by_cases hq : q.1 = k
    · exact ⟨q.2, by simp [dictLookup, hq]⟩
    · simp only [dictContains, List.any_cons, Bool.or_eq_true, decide_eq_true_eq] at h
      have h' : dictContains m k = true := by
        rcases h with h | h
        · exact absurd h hq
        · simpa [dictContains] using h
      obtain ⟨v, hv⟩ := ih h'
      exact ⟨v, by simpa [dictLookup, hq] using hv⟩

theorem map_upd_map_upd {κ ν : Type} [DecidableEq κ]
    (m : List (κ × ν)) (k : κ) (v₀ v : ν) :
    (m.map (fun q => if q.1 = k then (k, v₀) else q)).map
        (fun q => if q.1 = k then (k, v) else q)
      = m.map (fun q => if q.1 = k then (k, v) else q) := by
  induction m with
  | nil => rfl
  | cons q m ih =>
    by_cases hq : q.1 = k
    · simp [hq, ih]
    · simp [hq, ih]

theorem dictInsert_collapse {κ ν : Type} [DecidableEq κ]
    (m : List (κ × ν)) (k : κ) (v₀ v : ν) :
    dictInsert (dictInsert m k v₀) k v = dictInsert m k v := by
  by_cases h : dictContains m k
  · unfold dictInsert
    rw [if_pos h, if_pos (by rw [dictContains_map_upd, h]), if_pos h]
    exact map_upd_map_upd m k v₀ v
  · unfold dictInsert
    rw [if_neg h, if_pos (by rw [dictContains_append_self]), if_neg h]
    rw [List.map_append, map_upd_of_not_contains m k v (by simpa using h)]
    simp

theorem dictLookup_eq_none_of_not_contains {κ ν : Type} [DecidableEq κ]
    (m : List (κ × ν)) (k : κ) (h : dictContains m k = false) :
    dictLookup m k = none := by
  induction m with
  | nil => rfl
  | cons q m ih =>
    simp only [dictContains, List.any_cons, Bool.or_eq_false_iff,
      decide_eq_false_iff_not] at h
    simpa [dictLookup, h.1] using ih (by simpa [dictContains] using h.2)

/-- Normal form of the recording step: `record_chunk` is the single dict
write that stores the updated session under the payload's file id. -/
theorem record_chunk_eq (batches : BatchState) (p : DataBatchPayload) :
    record_chunk batches p
      = dictInsert batches p.fileID
          ⟨((dictLookup batches p.fileID).getD ⟨p.total, []⟩).total,
           dictInsert ((dictLookup batches p.fileID).getD ⟨p.total, []⟩).chunks
             p.order p.chunk⟩ := by
  simp only [record_chunk]
  by_cases h : dictContains batches p.fileID
  · rw [if_pos h]
  · rw [if_neg h, dictLookup_insert_self,
      dictLookup_eq_none_of_not_contains batches p.fileID (by simpa using h),
      dictInsert_collapse]
    rfl

theorem record_chunk_lookup_isSome (batches : BatchState) (p : DataBatchPayload) :
    ∃ s, dictLookup (record_chunk batches p) p.fileID = some s := by
  rw [record_chunk_eq]
  exact ⟨_, dictLookup_insert_self _ _ _⟩

theorem record_chunk_lookup_other (batches : BatchState) (p : DataBatchPayload)
    (g : String) (hg : g ≠ p.fileID) :
    dictLookup (record_chunk batches p) g = dictLookup batches g := by
  rw [record_chunk_eq]
  exact dictLookup_insert_other _ _ _ _ hg

theorem ascPayloads_cons (f : String) (n start : Nat) (c : String) (cs : List String) :
    ascPayloads f n start (c :: cs)
      = ⟨f, n, start, c, false⟩ :: ascPayloads f n (start + 1) cs := rfl

theorem ascChunks_map_snd (cs : List String) :
    ∀ s, (ascChunks s cs).map Prod.snd = cs := by
  induction cs with
  | nil => intro s; rfl
  | cons d ds ih => intro s; simp [ascChunks, ih (s + 1)]

theorem ascChunks_length (cs : List String) :
    ∀ s, (ascChunks s cs).length = cs.length := by
  induction cs with
  | nil => intro s; rfl
  | cons d ds ih => intro s; simp [ascChunks, ih (s + 1)]

theorem ascChunks_cons (s : Nat) (c : String) (cs : List String) :
    ascChunks s (c :: cs) = (s, c) :: ascChunks (s + 1) cs := rfl

theorem ascChunks_append (cs : List String) (c : String) :
    ∀ s, ascChunks s (cs ++ [c]) = ascChunks s cs ++ [(s + cs.length, c)] := by
  induction cs with
  | nil => intro s; simp [ascChunks]
  | cons d ds ih =>
    intro s
    rw [List.cons_append, ascChunks_cons, ascChunks_cons, ih (s + 1), List.cons_append]
    have h : s + 1 + ds.length = s + (d :: ds).length := by
      simp only [List.length_cons]; omega
    rw [h]

theorem ascChunks_not_contains (cs : List String) :
    ∀ s k, s + cs.length ≤ k → dictContains (ascChunks s cs) k = false := by
  induction cs with
  | nil => intro s k _; rfl
  | cons d ds ih =>
    intro s k h
    simp only [List.length_cons] at h
    have h1 : ¬ (s = k) := by omega
    have h2 := ih (s + 1) k (by omega)
    simp only [ascChunks, dictContains, List.any_cons, Bool.or_eq_false_iff,
      decide_eq_false_iff_not]
    exact ⟨h1, by simpa [dictContains] using h2⟩

theorem dictInsert_ascChunks (done : List String) (c : String) :
    dictInsert (ascChunks 0 done) done.length c = ascChunks 0 (done ++ [c]) := by
  rw [dictInsert,
    if_neg (by simp [ascChunks_not_contains done 0 done.length (by omega)]),
    ascChunks_append done c 0]
  simp

theorem dictContains_singleton {κ ν : Type} [DecidableEq κ] (k : κ) (v : ν) :
    dictContains [(k, v)] k = true := by
  simp [dictContains]

theorem dictLookup_singleton {κ ν : Type} [DecidableEq κ] (k : κ) (v : ν) :
    dictLookup [(k, v)] k = some v := by
  simp [dictLookup]

theorem dictInsert_singleton {κ ν : Type} [DecidableEq κ] (k : κ) (v w : ν) :
    dictInsert [(k, v)] k w = [(k, w)] := by
  simp [dictInsert, dictContains_singleton]

theorem sessionOf_singleton (f : String) (s : Session) : sessionOf [(f, s)] f = s := by
  simp [sessionOf, dictLookup]

theorem dictDelete_singleton (f : String) (s : Session) : dictDelete [(f, s)] f = [] := by
  simp [dictDelete]

theorem record_chunk_singleton (f : String) (s : Session) (n k : Nat) (c : String)
    (b : Bool) :
    record_chunk [(f, s)] ⟨f, n, k, c, b⟩ = [(f, ⟨s.total, dictInsert s.chunks k c⟩)] := by
  rw [record_chunk_eq]
  dsimp only
  rw [dictLookup_singleton]
  exact dictInsert_singleton f s _

/-- One `add_batch` step on a single-session table holding the ascending
prefix `done`, fed the next ascending fragment: it completes exactly when
this fragment reaches the declared total. -/
theorem add_batch_asc_step (f : String) (n : Nat) (done : List String) (c : String) :
    add_batch (α := String) Option.some [(f, ⟨n, ascChunks 0 done⟩)]
        ⟨f, n, done.length, c, false⟩
      = if done.length + 1 = n
        then ([], some (String.join (done ++ [c])))
        else ([(f, ⟨n, ascChunks 0 (done ++ [c])⟩)], none) := by
  unfold add_batch
  rw [record_chunk_singleton, dictInsert_ascChunks]
  by_cases h : done.length + 1 = n
  · rw [if_pos h]
    simp only [check_batch, sessionOf_singleton, ascChunks_length, List.length_append,
      List.length_singleton, h, if_pos rfl, assembleData, ascChunks_map_snd,
      Option.isSome_some, Bool.true_or, if_true, dictDelete_singleton]
  · rw [if_neg h]
    simp only [check_batch, sessionOf_singleton, ascChunks_length, List.length_append,
      List.length_singleton]
    rw [if_neg h]
    simp

/-- Running an ascending-order tail `rest` after the ascending prefix `done`
has been recorded: every call before the last returns nothing, the last call
returns the descriptor parsed from the full ascending concatenation, and the
table ends up empty. -/
theorem addAll_cons {α : Type} (parse : String → Option α) (st : BatchState)
    (p : DataBatchPayload) (ps : List DataBatchPayload) :
    addAll parse st (p :: ps)
      = ((addAll parse (add_batch parse st p).1 ps).1,
         (add_batch parse st p).2 :: (addAll parse (add_batch parse st p).1 ps).2) := rfl

theorem addAll_asc (f : String) (n : Nat) :
    ∀ (rest done : List String), rest ≠ [] → n = done.length + rest.length →
      addAll (α := String) Option.some [(f, ⟨n, ascChunks 0 done⟩)]
          (ascPayloads f n done.length rest)
        = ([], List.replicate (rest.length - 1) none
            ++ [some (String.join (done ++ rest))]) := by
  intro rest
  induction rest with
  | nil => intro done h _; exact absurd rfl h
  | cons c cs ih =>
    intro done _ hn
    rw [ascPayloads_cons]
    cases cs with
    | nil =>
      have hlen : done.length + 1 = n := by
        simp only [List.length_cons, List.length_nil] at hn; omega
      simp only [addAll, add_batch_asc_step, if_pos hlen]
      simp [addAll]
    | cons c' cs' =>
      have hlen : ¬ (done.length + 1 = n) := by
        simp only [List.length_cons] at hn; omega
      rw [addAll_cons, add_batch_asc_step, if_neg hlen]
      have hrec := ih (done ++ [c]) (by simp)
        (by
          simp only [List.length_append, List.length_cons, List.length_nil] at hn ⊢
          omega)
      rw [List.append_assoc] at hrec
      simp only [List.singleton_append] at hrec
      have hl : (done ++ [c]).length = done.length + 1 := by simp
      rw [hl] at hrec
      rw [hrec]
      simp [List.replicate_succ]

theorem record_chunk_nil (p : DataBatchPayload) :
    record_chunk [] p = record_chunk [(p.fileID, ⟨p.total, []⟩)] p := by
  simp [record_chunk, dictContains, dictLookup, dictInsert]

theorem add_batch_nil {α : Type} (parse : String → Option α) (p : DataBatchPayload) :
    add_batch parse [] p = add_batch parse [(p.fileID, ⟨p.total, []⟩)] p := by
  unfold add_batch
  rw [record_chunk_nil]

theorem addAll_nil_start {α : Type} (parse : String → Option α) (p : DataBatchPayload)
    (ps : List DataBatchPayload) :
    addAll parse [] (p :: ps) = addAll parse [(p.fileID, ⟨p.total, []⟩)] (p :: ps) := by
  simp only [addAll]
  rw [add_batch_nil]

/-- C1 counterexample: the two fragments of the spec's own example,
`(index=1,"CD")` arriving before `(index=0,"AB")` with declared total 2.
With the parser taken to be `Option.some` (so the assembled string is
returned verbatim), the payload handed to the parser is `"CDAB"` — the
chunks joined in arrival (dict-insertion) order — not the ascending-index
concatenation `"ABCD"` the claim requires. -/
theorem c1_counterexample :
    addAll (α := String) Option.some []
        [⟨"f", 2, 1, "CD", false⟩, ⟨"f", 2, 0, "AB", false⟩]
      = ([], [none, some "CDAB"]) ∧ "CDAB" ≠ "ABCD" := by
  constructor
  · decide
  · decide

/-- C1 (amended): the payload assembled at completion is the concatenation
of the fragment payloads in dict-insertion (first-arrival) order; in
particular, when the fragments of a session arrive in ascending index order
(indices `0..n-1` with declared total `n`), the assembled payload is the
ascending-index concatenation: every call before the last returns nothing,
the last call returns the parse of `String.join` of the chunks in index
order, and the session table is left empty. -/
theorem c1_amended_ascending_arrival (f c : String) (cs : List String) :
    addAll (α := String) Option.some []
        (ascPayloads f (c :: cs).length 0 (c :: cs))
      = ([], List.replicate cs.length none ++ [some (String.join (c :: cs))]) := by
  rw [ascPayloads_cons, addAll_nil_start, ← ascPayloads_cons]
  have h := addAll_asc f (c :: cs).length (c :: cs) [] (List.cons_ne_nil c cs) (by simp)
  simpa using h

/-- C4 counterexample: a session with declared total 2 receives a single
fragment carrying `isFinal`.  With a parser that always succeeds
(`Option.some`), the claim requires a forced completion returning a
descriptor; the code instead returns nothing (no parse is attempted) and
discards the session. -/
theorem c4_counterexample :
    add_batch (α := String) Option.some [] ⟨"f", 2, 0, "AB", true⟩ = ([], none) := by
  decide

/-- C4 (amended): when a fragment arrives with `isFinal` set while the count
of distinct recorded indices still differs from the declared total, no
completion fires: nothing is parsed, `add_batch` returns `none`, and the
session is deleted from the table. -/
theorem c4_amended_isfinal_discards {α : Type} (parse : String → Option α)
    (batches : BatchState) (p : DataBatchPayload)
    (hlast : p.isLastChunk = true)
    (hcount : (sessionOf (record_chunk batches p) p.fileID).chunks.length
      ≠ (sessionOf (record_chunk batches p) p.fileID).total) :
    add_batch parse batches p = (dictDelete (record_chunk batches p) p.fileID, none)
      ∧ dictLookup (add_batch parse batches p).1 p.fileID = (none : Option Session) := by
  have hcb : check_batch parse (record_chunk batches p) p.fileID = Except.ok none := by
    simp only [check_batch]
    rw [if_neg hcount]
  have hmain : add_batch parse batches p
      = (dictDelete (record_chunk batches p) p.fileID, none) := by
    simp only [add_batch]
    rw [hcb]
    simp [hlast]
  exact ⟨hmain, by rw [hmain]; exact dictLookup_delete_self _ _⟩

/-- C4 witness: the amended statement applied to the counterexample input. -/
theorem c4_witness :
    add_batch (α := String) Option.some [] ⟨"f", 2, 0, "AB", true⟩
        = (dictDelete (record_chunk [] ⟨"f", 2, 0, "AB", true⟩) "f", none)
      ∧ dictLookup (add_batch (α := String) Option.some [] ⟨"f", 2, 0, "AB", true⟩).1 "f"
        = (none : Option Session) :=
  c4_amended_isfinal_discards Option.some [] ⟨"f", 2, 0, "AB", true⟩ rfl (by decide)

/-- C5 counterexample: a session with total 1 whose single chunk fails to
parse.  Completion fires (count = total), the parse raises, the exception is
caught in `add_batch` before the `del` line runs — so the session is NOT
removed, refuting unconditional removal. -/
theorem c5_counterexample :
    (add_batch (fun _ => (none : Option String)) [] ⟨"f", 1, 0, "x", false⟩).1
        = [("f", ⟨1, [(0, "x")]⟩)]
      ∧ dictLookup
          (add_batch (fun _ => (none : Option String)) [] ⟨"f", 1, 0, "x", false⟩).1 "f"
        = some ⟨1, [(0, "x")]⟩ := by
  constructor
  · decide
  · decide

/-- C5 (amended): after `add_batch`, the session is absent from the table if
and only if `check_batch` returned without raising AND (it produced a config
or `isLastChunk` was set).  In particular a parse failure — the raising case
— always leaves the session in the table. -/
theorem c5_amended_removal_iff {α : Type} (parse : String → Option α)
    (batches : BatchState) (p : DataBatchPayload) :
    dictLookup (add_batch parse batches p).1 p.fileID = (none : Option Session)
      ↔ ∃ fc : Option α,
          check_batch parse (record_chunk batches p) p.fileID = Except.ok fc
            ∧ (fc.isSome = true ∨ p.isLastChunk = true) := by
  rcases hcb : check_batch parse (record_chunk batches p) p.fileID with u | fc
  · have h1 : (add_batch parse batches p).1 = record_chunk batches p := by
      simp [add_batch, hcb]
    obtain ⟨s, hs⟩ := record_chunk_lookup_isSome batches p
    rw [h1, hs]
    constructor
    · intro h; exact absurd h (by simp)
    · rintro ⟨fc, hfc, _⟩
      exact absurd hfc (by simp)
  · cases hcond : (fc.isSome || p.isLastChunk) with
    | true =>
      have h1 : (add_batch parse batches p).1
          = dictDelete (record_chunk batches p) p.fileID := by
        simp [add_batch, hcb, hcond]
      rw [h1, dictLookup_delete_self]
      constructor
      · intro _
        exact ⟨fc, rfl, by simpa using hcond⟩
      · intro _; rfl
    | false =>
      have h1 : (add_batch parse batches p).1 = record_chunk batches p := by
        simp [add_batch, hcb, hcond]
      obtain ⟨s, hs⟩ := record_chunk_lookup_isSome batches p
      rw [h1, hs]
      constructor
      · intro h; exact absurd h (by simp)
      · rintro ⟨fc', hfc', hor⟩
        have hfe : fc = fc' := by injection hfc'
        subst hfe
        rcases hor with h3 | h3
        · simp [h3] at hcond
        · simp [h3] at hcond

/-- C6 counterexample: a malformed single-fragment session (parser always
fails).  The claim says the caller observes a `ParseError` rather than a
no-completion result; in fact `add_batch` returns `none` — exactly what a
genuine no-completion call (second conjunct) also returns, so the caller
cannot distinguish the parse failure. -/
theorem c6_counterexample :
    (add_batch (fun _ => (none : Option String)) [] ⟨"g", 1, 0, "x", false⟩).2 = none
      ∧ (add_batch (α := String) Option.some [] ⟨"g", 2, 0, "x", false⟩).2 = none := by
  constructor
  · decide
  · decide

/-- C6 (amended): a parse failure is caught inside `add_batch`, which then
returns `none` and leaves the failed session's recorded state in place; the
failure is isolated: every other session's entry in the table is unchanged
by the call. -/
theorem c6_amended_parse_failure_swallowed {α : Type} (parse : String → Option α)
    (batches : BatchState) (p : DataBatchPayload) (g : String)
    (hg : g ≠ p.fileID) :
    dictLookup (add_batch parse batches p).1 g = dictLookup batches g
      ∧ (check_batch parse (record_chunk batches p) p.fileID = Except.error () →
          add_batch parse batches p = (record_chunk batches p, (none : Option α))) := by
  constructor
  · rcases hcb : check_batch parse (record_chunk batches p) p.fileID with u | fc
    · have h1 : (add_batch parse batches p).1 = record_chunk batches p := by
        simp [add_batch, hcb]
      rw [h1]
      exact record_chunk_lookup_other batches p g hg
    · cases hcond : (fc.isSome || p.isLastChunk) with
      | true =>
        have h1 : (add_batch parse batches p).1
            = dictDelete (record_chunk batches p) p.fileID := by
          simp [add_batch, hcb, hcond]
        rw [h1, dictLookup_delete_other _ _ _ hg]
        exact record_chunk_lookup_other batches p g hg
      | false =>
        have h1 : (add_batch parse batches p).1 = record_chunk batches p := by
          simp [add_batch, hcb, hcond]
        rw [h1]
        exact record_chunk_lookup_other batches p g hg
  · intro hcb
    simp [add_batch, hcb]

/-- C6 witness: the amended statement applied to the counterexample input,
with `"other"` as the unaffected session id. -/
theorem c6_witness :
    dictLookup (add_batch (fun _ => (none : Option String)) []
        ⟨"h", 1, 0, "x", false⟩).1 "other"
        = dictLookup ([] : BatchState) "other"
      ∧ add_batch (fun _ => (none : Option String)) [] ⟨"h", 1, 0, "x", false⟩
        = (record_chunk [] ⟨"h", 1, 0, "x", false⟩, (none : Option String)) := by
  have h := c6_amended_parse_failure_swallowed (fun _ => (none : Option String)) []
    ⟨"h", 1, 0, "x", false⟩ "other" (by decide)
  exact ⟨h.1, h.2 rfl⟩

/-- C9: recording a fragment at an index that was already recorded
overwrites the prior payload (last write wins): recording twice at the same
index leaves the table in exactly the state of recording only the second
payload — so assembly uses only the latest value per index, the set and
order of recorded indices are unchanged, and the distinct-index count does
not grow. -/
theorem c9_duplicate_index_overwrites (batches : BatchState) (f : String)
    (n i : Nat) (c₁ c₂ : String) (l₁ l₂ : Bool) :
    record_chunk (record_chunk batches ⟨f, n, i, c₁, l₁⟩) ⟨f, n, i, c₂, l₂⟩
      = record_chunk batches ⟨f, n, i, c₂, l₂⟩ := by
  rw [record_chunk_eq, record_chunk_eq, record_chunk_eq]
  dsimp only
  rw [dictLookup_insert_self]
  dsimp only [Option.getD]
  rw [dictInsert_collapse, dictInsert_collapse]

/-- C7: while the reporter is permanently failed (`websocket_failed`), a
PROCESSING send is dropped outright — no send attempt, state (including the
logged flag) untouched — while a DONE or ERROR send resets the state to
healthy and runs exactly one fresh retry cycle, whose verdict alone
determines the new failed state. -/
theorem c7_terminal_reset (st : LoggerState) (outs : List SendOutcome)
    (hfail : st.websocket_failed = true) :
    send_report true outs st FileStatus.PROCESSING = (st, none)
      ∧ (∀ status, status = FileStatus.DONE ∨ status = FileStatus.ERROR →
          send_report true outs st status
            = (⟨(trySendList (outs.take max_retries)).setFailed,
                (trySendList (outs.take max_retries)).setFailed⟩,
               some (trySendList (outs.take max_retries)))) := by
  constructor
  · simp [send_report, hfail]
  · intro status hs
    rcases hs with h | h <;> subst h <;> simp [send_report, hfail]

/-- C7 witness: a failed reporter with one available outcome — the
PROCESSING send is dropped, the DONE send runs a fresh cycle. -/
theorem c7_witness :
    send_report true [SendOutcome.success] ⟨true, true⟩ FileStatus.PROCESSING
        = (⟨true, true⟩, none)
      ∧ send_report true [SendOutcome.success] ⟨true, true⟩ FileStatus.DONE
        = (⟨false, false⟩, some ⟨true, false, 1, 0⟩) := by
  have h := c7_terminal_reset ⟨true, true⟩ [SendOutcome.success] rfl
  exact ⟨h.1, h.2 FileStatus.DONE (Or.inl rfl)⟩

theorem trySendList_attempts_le (l : List SendOutcome) :
    (trySendList l).attempts ≤ l.length := by
  induction l with
  | nil => simp [trySendList]
  | cons o rest ih =>
    cases o with
    | success => simp [trySendList]
    | permanent => simp [trySendList]
    | transient =>
      cases rest with
      | nil => simp [trySendList]
      | cons r rs =>
        simp only [trySendList, List.length_cons]
        simp only [List.length_cons] at ih
        omega

/-- C8: the send path is a total function of its outcome trace (never
raises); a first-attempt permanent-signature failure marks the reporter
failed after exactly one attempt with no pause; three transient failures
exhaust the cycle — three attempts with two 0.5 s pauses (1000 ms slept) —
and also mark it failed; no cycle makes more than `max_retries` attempts;
and `send_report` in a healthy state performs exactly one cycle and adopts
its verdict. -/
theorem c8_retry_policy (outs : List SendOutcome) (st : LoggerState) :
    (∀ rest, outs = SendOutcome.permanent :: rest →
        trySendList (outs.take max_retries) = ⟨false, true, 1, 0⟩)
      ∧ (outs.length = 3 → (∀ o ∈ outs, o = SendOutcome.transient) →
          trySendList (outs.take max_retries) = ⟨false, true, 3, 1000⟩)
      ∧ (trySendList (outs.take max_retries)).attempts ≤ max_retries
      ∧ (st.websocket_failed = false →
          send_report true outs st FileStatus.PROCESSING
            = (⟨(trySendList (outs.take max_retries)).setFailed,
                st.error_logged || (trySendList (outs.take max_retries)).setFailed⟩,
               some (trySendList (outs.take max_retries)))) := by
  refine ⟨?_, ?_, ?_, ?_⟩
  · intro rest h
    subst h
    rfl
  · intro hlen hall
    rcases outs with _ | ⟨a, outs⟩
    · simp at hlen
    rcases outs with _ | ⟨b, outs⟩
    · simp at hlen
    rcases outs with _ | ⟨c, outs⟩
    · simp at hlen
    rcases outs with _ | ⟨d, outs⟩
    · have ha := hall a (by simp)
      have hb := hall b (by simp)
      have hc := hall c (by simp)
      subst ha; subst hb; subst hc
      rfl
    · simp only [List.length_cons] at hlen
      omega
  · exact le_trans (trySendList_attempts_le _) (List.length_take_le max_retries outs)
  · intro h
    simp [send_report, h]

/-- C8 witness: a permanent-signature failure stops after one attempt; a
triple transient failure exhausts three attempts with 1000 ms of pauses and
fails the reporter. -/
theorem c8_witness :
    trySendList ([SendOutcome.permanent, SendOutcome.transient,
        SendOutcome.transient].take max_retries) = ⟨false, true, 1, 0⟩
      ∧ trySendList ([SendOutcome.transient, SendOutcome.transient,
          SendOutcome.transient].take max_retries) = ⟨false, true, 3, 1000⟩
      ∧ send_report true [SendOutcome.transient, SendOutcome.transient,
            SendOutcome.transient] ⟨false, false⟩ FileStatus.PROCESSING
        = (⟨true, true⟩, some ⟨false, true, 3, 1000⟩) := by
  refine ⟨?_, ?_, ?_⟩
  · exact (c8_retry_policy [SendOutcome.permanent, SendOutcome.transient,
      SendOutcome.transient] ⟨false, false⟩).1 [SendOutcome.transient,
      SendOutcome.transient] rfl
  · exact (c8_retry_policy [SendOutcome.transient, SendOutcome.transient,
      SendOutcome.transient] ⟨false, false⟩).2.1 rfl (by decide)
  · exact (c8_retry_policy [SendOutcome.transient, SendOutcome.transient,
      SendOutcome.transient] ⟨false, false⟩).2.2.2 rfl

/-- C10 (implicit claim from the code): a single failed PROCESSING heartbeat
send — one attempt, no retry — permanently marks the reporter failed;
afterwards non-terminal sends (reports and heartbeats) are suppressed, while
a DONE send still runs a retry cycle; by contrast the regular report path
would have retried the same lone transient failure and delivered on the
second attempt. -/
theorem c10_heartbeat_single_failure (st : LoggerState) (o : SendOutcome)
    (outs : List SendOutcome) (hok : st.websocket_failed = false)
    (hfail : o ≠ SendOutcome.success) :
    (send_heartbeat true true o st).websocket_failed = true
      ∧ send_report true outs (send_heartbeat true true o st) FileStatus.PROCESSING
        = (send_heartbeat true true o st, none)
      ∧ send_heartbeat true true o (send_heartbeat true true o st)
        = send_heartbeat true true o st
      ∧ (send_report true outs (send_heartbeat true true o st) FileStatus.DONE).2
        = some (trySendList (outs.take max_retries))
      ∧ trySendList [SendOutcome.transient, SendOutcome.success]
        = ⟨true, false, 2, 500⟩ := by
  have h1 : send_heartbeat true true o st = ⟨true, st.error_logged⟩ := by
    cases o with
    | success => exact absurd rfl hfail
    | permanent => simp [send_heartbeat, hok]
    | transient => simp [send_heartbeat, hok]
  refine ⟨by rw [h1], ?_, ?_, ?_, rfl⟩
  · rw [h1]
    simp [send_report]
  · rw [h1]
    simp [send_heartbeat]
  · rw [h1]
    simp [send_report]

/-- C10 witness: the heartbeat transient failure at a healthy reporter. -/
theorem c10_witness :
    (send_heartbeat true true SendOutcome.transient ⟨false, false⟩).websocket_failed = true
      ∧ send_report true [SendOutcome.success]
          (send_heartbeat true true SendOutcome.transient ⟨false, false⟩)
          FileStatus.PROCESSING
        = (send_heartbeat true true SendOutcome.transient ⟨false, false⟩, none)
      ∧ send_heartbeat true true SendOutcome.transient
          (send_heartbeat true true SendOutcome.transient ⟨false, false⟩)
        = send_heartbeat true true SendOutcome.transient ⟨false, false⟩
      ∧ (send_report true [SendOutcome.success]
          (send_heartbeat true true SendOutcome.transient ⟨false, false⟩)
          FileStatus.DONE).2
        = some (trySendList ([SendOutcome.success].take max_retries))
      ∧ trySendList [SendOutcome.transient, SendOutcome.success]
        = ⟨true, false, 2, 500⟩ :=
  c10_heartbeat_single_failure ⟨false, false⟩ SendOutcome.transient
    [SendOutcome.success] rfl (by decide)

theorem attemptHit_iff (filename : String) (env : AttemptEnv)
    (hc : fallbackContract filename env) :
    attemptHit filename env = true
      ↔ ∃ cand ∈ returnedCandidates env, cand.title = some filename := by
  rcases env with ⟨ce, rk, fb⟩
  rcases ce with u | b
  · simp [attemptHit, returnedCandidates]
  · cases b with
    | false => simp [attemptHit, returnedCandidates]
    | true =>
      cases rk with
      | ok objs => simp [attemptHit, returnedCandidates, List.any_eq_true]
      | raised => simp [attemptHit, returnedCandidates]
      | timeout =>
        rcases fb with u | objs
        · simp [attemptHit, returnedCandidates]
        · simp only [attemptHit, returnedCandidates]
          constructor
          · intro h
            have hne : objs ≠ [] := by simpa using h
            rcases objs with _ | ⟨cand, rest⟩
            · exact absurd rfl hne
            · exact ⟨cand, by simp, hc _ rfl cand (by simp)⟩
          · rintro ⟨cand, hmem, _⟩
            have hne : objs ≠ [] := by
              rintro rfl
              simp at hmem
            simpa using hne

/-- C3: under the store's equality contract for the fallback query, the
existence probe returns true if and only if some attempt examined a
candidate whose title is exactly (case-sensitively) the probed filename; a
ranked near-match alone never yields true, and the probe — a total function
of its attempt trace, with every exception path explicit — returns false
when all attempts miss. -/
theorem c3_exact_match_iff (filename : String) (envs : List AttemptEnv)
    (hc : ∀ env ∈ envs, fallbackContract filename env) :
    check_document_in_weaviate_with_retry filename envs = true
      ↔ ∃ env ∈ envs, ∃ cand ∈ returnedCandidates env,
          cand.title = some filename := by
  induction envs with
  | nil => simp [check_document_in_weaviate_with_retry]
  | cons env rest ih =>
    have henv := hc env (by simp)
    have hrest : ∀ e ∈ rest, fallbackContract filename e :=
      fun e he => hc e (by simp [he])
    simp only [check_document_in_weaviate_with_retry]
    by_cases h : attemptHit filename env = true
    · rw [if_pos h]
      constructor
      · intro _
        obtain ⟨cand, hm, ht⟩ := (attemptHit_iff filename env henv).mp h
        exact ⟨env, by simp, cand, hm, ht⟩
      · intro _; rfl
    · rw [if_neg h]
      rw [ih hrest]
      constructor
      · rintro ⟨e, he, hcand⟩
        exact ⟨e, by simp [he], hcand⟩
      · rintro ⟨e, he, hcand⟩
        rcases List.mem_cons.mp he with rfl | he'
        · exact absurd ((attemptHit_iff filename e henv).mpr hcand) h
        · exact ⟨e, he', hcand⟩

/-- C3 witness: the spec's own example — the store holds `"A.pdf"` and
`"AA.pdf"`; probing `"A.pdf"` succeeds through the exact match only. -/
theorem c3_witness :
    check_document_in_weaviate_with_retry "A.pdf"
        [⟨Except.ok true, RankedOutcome.ok [⟨some "A.pdf"⟩, ⟨some "AA.pdf"⟩],
          Except.error ()⟩]
      = true := by
  refine (c3_exact_match_iff "A.pdf" _ ?_).mpr
    ⟨⟨Except.ok true, RankedOutcome.ok [⟨some "A.pdf"⟩, ⟨some "AA.pdf"⟩],
        Except.error ()⟩,
      by simp, ⟨some "A.pdf"⟩, by simp [returnedCandidates], rfl⟩
  intro env henv objs hobjs
  rw [List.mem_singleton] at henv
  subst henv
  simp at hobjs

/-- C2: the reconciler's final disposition is decided solely by the probe:
found gives a DONE report and no raised error regardless of any import
error; not found gives an ERROR report whose message carries the import
error when one occurred (else the synthesized verification-failed message)
and then raises the import error (or the synthesized not-found error); the
terminal report is issued (the logger state is exactly the post-report
state); and the raised error is independent of the reporter's state and
outcomes. -/
theorem c2_reconciler_decision (filename : String) (importError : Option String)
    (credentials : Option Unit) (connectResult : Except Unit (List AttemptEnv))
    (existingEnvs : List AttemptEnv) (sp : Bool) (outs : List SendOutcome)
    (st : LoggerState) :
    let r := resilient_import_document filename importError credentials connectResult
      existingEnvs sp outs st
    (resolveDocumentExists filename credentials connectResult existingEnvs = true →
        r.reportStatus = FileStatus.DONE ∧ r.raised = none)
      ∧ (resolveDocumentExists filename credentials connectResult existingEnvs = false →
          r.reportStatus = FileStatus.ERROR
            ∧ r.raised = some (importError.getD "Document not found in Weaviate after import")
            ∧ (importError = none →
                r.reportMessage
                  = "Document not found in Weaviate after import (verification failed)")
            ∧ ∀ e, importError = some e → r.reportMessage = "Import failed: " ++ e)
      ∧ r.loggerState = (send_report sp outs st r.reportStatus).1
      ∧ ∀ sp₂ outs₂ st₂,
          (resilient_import_document filename importError credentials connectResult
            existingEnvs sp₂ outs₂ st₂).raised = r.raised := by
  dsimp only
  cases hres : resolveDocumentExists filename credentials connectResult existingEnvs with
  | true =>
    refine ⟨fun _ => ?_, fun h => absurd h (by simp), ?_, ?_⟩
    · constructor <;> simp [resilient_import_document, hres]
    · simp [resilient_import_document, hres]
    · intro sp₂ outs₂ st₂
      simp [resilient_import_document, hres]
  | false =>
    refine ⟨fun h => absurd h (by simp), fun _ => ?_, ?_, ?_⟩
    · refine ⟨?_, ?_, ?_, ?_⟩
      · simp [resilient_import_document, hres]
      · simp [resilient_import_document, hres]
      · intro he
        subst he
        simp [resilient_import_document, hres]
      · intro e he
        subst he
        simp [resilient_import_document, hres]
    · simp [resilient_import_document, hres]
    · intro sp₂ outs₂ st₂
      simp [resilient_import_document, hres]

/-- C2 witness: with an import error captured, a probe hit still yields
DONE with nothing raised; a probe miss yields ERROR carrying the import
error in both message and raised error. -/
theorem c2_witness :
    (resilient_import_document "g.pdf" (some "boom") none (Except.error ())
        [⟨Except.ok true, RankedOutcome.ok [⟨some "g.pdf"⟩], Except.error ()⟩]
        true [] ⟨false, false⟩).reportStatus = FileStatus.DONE
      ∧ (resilient_import_document "g.pdf" (some "boom") none (Except.error ())
          [⟨Except.ok true, RankedOutcome.ok [⟨some "g.pdf"⟩], Except.error ()⟩]
          true [] ⟨false, false⟩).raised = none
      ∧ (resilient_import_document "g.pdf" (some "boom") none (Except.error ()) [] true []
          ⟨false, false⟩).reportStatus = FileStatus.ERROR
      ∧ (resilient_import_document "g.pdf" (some "boom") none (Except.error ()) [] true []
          ⟨false, false⟩).raised = some "boom"
      ∧ (resilient_import_document "g.pdf" (some "boom") none (Except.error ()) [] true []
          ⟨false, false⟩).reportMessage = "Import failed: boom" := by
  have h1 := c2_reconciler_decision "g.pdf" (some "boom") none (Except.error ())
    [⟨Except.ok true, RankedOutcome.ok [⟨some "g.pdf"⟩], Except.error ()⟩]
    true [] ⟨false, false⟩
  have h2 := c2_reconciler_decision "g.pdf" (some "boom") none (Except.error ()) [] true []
    ⟨false, false⟩
  refine ⟨(h1.1 (by decide)).1, (h1.1 (by decide)).2, (h2.2.1 rfl).1,
    (h2.2.1 rfl).2.1, ?_⟩
  exact (h2.2.1 rfl).2.2.2 "boom" rfl

end Verba
